import Mathlib

/-!
Verification of the `poly/promise` package: a verifiable secret-promise
primitive.  One party (the promiser) commits a scalar secret to `n` insurers
via Shamir sharing with a public polynomial commitment; shares are masked with
pairwise Diffie-Hellman keys; insurers endorse the promise with anonymous-set
signatures or publish blame proofs (DH-mask disclosure + ZK discrete-log proof
+ blame-tagged signature); an observer certifies a promise once at least `r`
valid endorsements and no valid blame exist.

Embedding conventions:
* The external group abstraction is modelled in exponent coordinates over
  `ZMod q`: a `Point` is the discrete logarithm of the group element to the
  standard generator, so `Point.Mul b s = s * b` and the generator is `1`.
* Go `int` is modelled as `ℤ`; byte buffers as lists of tokens (`MByte`),
  one token per atomic wire item (a 4-byte little-endian length prefix, a
  marshalled point, scalar, signature or proof).
* Go errors are an enum (`PErr` / `CErr`); a function that can panic returns
  an `Option` whose `none` models the panic.
* Randomness consumed by the code (the random polynomial) is passed as an
  explicit argument; the suite's deterministic mask derivation
  `Scalar.Pick (Cipher (marshal D))` is an arbitrary function parameter
  `mask : Point q → Scalar q`.
-/

/-- Modelled from the spec: `Scalar`, an element of the prime-order scalar
field of the suite (the `abstract` package is not under `src/`). -/
abbrev Scalar (q : ℕ) := ZMod q

/-- Modelled from the spec: `Point`, an element of the prime-order group,
written in exponent coordinates relative to the standard generator. -/
abbrev Point (q : ℕ) := ZMod q

/-- Modelled from the spec: scalar multiplication `Point.Mul(B, s) = s · B`. -/
def pointMul {q : ℕ} (b : Point q) (s : Scalar q) : Point q := s * b

/-- Modelled from the spec: the standard generator of the group (exponent 1). -/
def basePoint (q : ℕ) : Point q := 1

/-- Modelled from the spec: `config.KeyPair`, a secret scalar with its public
point (the `config` package is not under `src/`). -/
structure KeyPair (q : ℕ) where
  secret : Scalar q
  public : Point q
deriving DecidableEq

/-- A keypair is honestly drawn when `Public = g · Secret`. -/
def KeyPair.honest {q : ℕ} (kp : KeyPair q) : Prop :=
  kp.public = pointMul (basePoint q) kp.secret

/-- Wire-visible protocol name used by the proof framework (promise.go line 23). -/
def protocolName : String := "Promise Protocol"

/-- Wire-visible endorsement tag (promise.go line 26). -/
def sigMsg : String := "Promise Signature"

/-- Wire-visible blame tag (promise.go line 27). -/
def sigBlameMsg : String := "Promise Blame Signature"

/-- Modelled from the spec: the content of an anonymous-set signature produced
by `anon.Sign` (the `anon` package is not under `src/`): it binds the signed
message, the anonymity set used at signing time, and the signer's secret. -/
structure AnonSig (q : ℕ) where
  msg : String
  ring : List (Point q)
  signer : Scalar q
deriving DecidableEq

/-- Modelled from the spec: a Fiat-Shamir proof for the representation
predicate `D = x · P` produced by `proof.HashProve` (the `proof` package is
not under `src/`): it binds the protocol domain tag, the public values of the
statement, and the witness. -/
structure RepProof (q : ℕ) where
  name : String
  D : Point q
  P : Point q
  x : Scalar q
deriving DecidableEq

/-- One atomic item of a marshalled byte buffer: a 4-byte little-endian
length prefix (`raw`), a marshalled point, scalar, anonymous-set signature,
or Fiat-Shamir proof. -/
inductive MByte (q : ℕ) where
  | raw (val : ℕ)
  | pt (val : Point q)
  | sc (val : Scalar q)
  | sigTok (val : AnonSig q)
  | proofTok (val : RepProof q)
deriving DecidableEq

/-- Reinterpret a buffer item as a little-endian `uint32` value, as
`binary.LittleEndian.Uint32` does on raw bytes. -/
def MByte.toLen {q : ℕ} : MByte q → ℕ
  | MByte.raw v => v % 2 ^ 32
  | _ => 0

/-- Go's `uint32(x)` conversion of an `int`: truncation modulo `2^32`. -/
def u32ofInt (x : ℤ) : ℕ := (x % 2 ^ 32).toNat

/-- Modelled from the spec: `anon.Sign(suite, rng, msg, ring, nil, 0, secret)`
as an ideal signature: the signature records message, ring and signer. -/
def anonSign {q : ℕ} (msg : String) (ring : List (Point q))
    (signerSecret : Scalar q) : AnonSig q :=
  { msg := msg, ring := ring, signer := signerSecret }

/-- Modelled from the spec: `anon.Verify(suite, msg, ring, nil, sig)` as an
ideal unforgeable signature: verification succeeds exactly when the bytes are
a well-formed signature over the same message and ring, produced with the
secret of a ring member. -/
def anonVerify {q : ℕ} (msg : String) (ring : List (Point q))
    (sigBytes : List (MByte q)) : Bool :=
  match sigBytes with
  | [MByte.sigTok a] =>
      decide (a.msg = msg ∧ a.ring = ring ∧
        pointMul (basePoint q) a.signer ∈ ring)
  | _ => false

/-- Modelled from the spec: `proof.HashProve` for the representation predicate
`Rep("D", "x", "P")`, i.e. `D = x · P`, with fresh randomness (the proof is
deterministic in the statement and witness in this ideal model). -/
def hashProveRep {q : ℕ} (name : String) (dv pv : Point q) (x : Scalar q) :
    List (MByte q) :=
  [MByte.proofTok { name := name, D := dv, P := pv, x := x }]

/-- Modelled from the spec: `proof.HashVerify` for the predicate `D = x · P`
as an ideal proof of knowledge: verification succeeds exactly when the bytes
are a well-formed proof, over the same protocol tag and the same public
values, whose recorded witness satisfies the predicate. -/
def hashVerifyRep {q : ℕ} (name : String) (dv pv : Point q)
    (proofBytes : List (MByte q)) : Bool :=
  match proofBytes with
  | [MByte.proofTok pf] =>
      decide (pf.name = name ∧ pf.D = dv ∧ pf.P = pv ∧ dv = pointMul pv pf.x)
  | _ => false

/-- Horner evaluation of a coefficient list (constant term first), used both
for private polynomials over scalars and committed polynomials over points:
`polyEval [a0, a1, a2] x = a0 + x * (a1 + x * a2)`. -/
def polyEval {q : ℕ} (coeffs : List (ZMod q)) (x : ZMod q) : ZMod q :=
  coeffs.foldr (fun a acc => a + x * acc) 0

/-- Modelled from the spec: `poly.PriPoly.Pick(suite, t, s0, rand)` picks a
random degree-`(t-1)` polynomial with constant term `s0` (the `poly` package
is not under `src/`); the random higher coefficients are the explicit
argument `rand`. -/
def priPolyPick {q : ℕ} (t : ℤ) (s0 : Scalar q) (rand : List (Scalar q)) :
    List (Scalar q) :=
  s0 :: rand.take (t - 1).toNat

/-- Modelled from the spec: the private share of index `i` is the polynomial
evaluated at abscissa `i + 1` (the same convention as `pubPolyCheck`). -/
def priShareAt {q : ℕ} (coeffs : List (Scalar q)) (i : ℤ) : Scalar q :=
  polyEval coeffs ((i + 1 : ℤ) : ZMod q)

/-- Modelled from the spec: `poly.PubPoly.Commit` commits each coefficient
`a_k` as `g · a_k` with the standard generator. -/
def pubPolyCommit {q : ℕ} (coeffs : List (Scalar q)) : List (Point q) :=
  coeffs.map (fun a => pointMul (basePoint q) a)

/-- Modelled from the spec: `poly.PubPoly.Check(i, s)` verifies
`g · s = Σ (i+1)^k · pubPoly[k]`. -/
def pubPolyCheck {q : ℕ} (pub : List (Point q)) (i : ℤ) (s : Scalar q) : Bool :=
  decide (pointMul (basePoint q) s = polyEval pub ((i + 1 : ℤ) : ZMod q))

/-- The distinguishable error conditions of the promise package, one
constructor per distinct `errors.New` site (promise.go). -/
inductive PErr where
  | invalidTRN
  | wrongKey
  | lengthMismatch
  | badIndex
  | wrongInsurer
  | badShare
  | nilSignature
  | badSignature
  | badProof
  | unjustifiedBlame
  | repudiated
  | insufficientSigs
deriving DecidableEq

/-- Codec error conditions: short buffer, or an invalid point/scalar
encoding rejected by the suite's unmarshalling. -/
inductive CErr where
  | bufferTooSmall
  | badEncoding
deriving DecidableEq

/-- `PromiseSignature` (promise.go lines 49-57): an insurer's endorsement or
blame signature; `signature = none` models a Go `nil` byte slice. -/
structure PromiseSignature (q : ℕ) where
  signature : Option (List (MByte q))
deriving DecidableEq

/-- `BlameProof` (promise.go lines 245-259): DH-mask disclosure, ZK proof
bytes, and the insurer's blame-tagged signature. -/
structure BlameProof (q : ℕ) where
  diffieKey : Point q
  diffieKeyProof : List (MByte q)
  signature : PromiseSignature q
deriving DecidableEq

/-- `Promise` (promise.go lines 488-519). -/
structure Promise (q : ℕ) where
  t : ℤ
  r : ℤ
  n : ℤ
  pubKey : Point q
  pubPoly : List (Point q)
  insurers : List (Point q)
  secrets : List (Scalar q)
deriving DecidableEq

/-- `PromiseState` (promise.go lines 1068-1085); `priShares` models the
`poly.PriShares` accumulator as optional reconstructed share slots. -/
structure PromiseState (q : ℕ) where
  promise : Promise q
  priShares : List (Option (Scalar q))
  signatures : List (Option (PromiseSignature q))
  blames : List (Option (BlameProof q))

/-- `Promise.diffieHellmanEncrypt` (promise.go lines 645-653): add the mask
scalar derived deterministically from the marshalled DH point. -/
def diffieHellmanEncrypt {q : ℕ} (mask : Point q → Scalar q)
    (secret : Scalar q) (diffieBase : Point q) : Scalar q :=
  secret + mask diffieBase

/-- `Promise.diffieHellmanDecrypt` (promise.go lines 664-672): subtract the
same mask scalar. -/
def diffieHellmanDecrypt {q : ℕ} (mask : Point q → Scalar q)
    (secret : Scalar q) (diffieBase : Point q) : Scalar q :=
  secret - mask diffieBase

/-- `Promise.ConstructPromise` (promise.go lines 559-598).  `none` models the
`panic("Not enough insurers for the secret")`; otherwise `r` is clamped
sequentially (`r < t` then `r > n`), the polynomial is picked and committed,
and each share is encrypted under `Mul(insurers[i], promiserKP.Secret)`. -/
def constructPromise {q : ℕ} (mask : Point q → Scalar q)
    (secretKP promiserKP : KeyPair q) (t r : ℤ)
    (insurers : List (Point q)) (polyRand : List (Scalar q)) :
    Option (Promise q) :=
  let n : ℤ := insurers.length
  if n < t then none
  else
    let r1 := if r < t then t else r
    let r2 := if r1 > n then n else r1
    let coeffs := priPolyPick t secretKP.secret polyRand
    let secrets := (List.range n.toNat).map (fun (i : ℕ) =>
      diffieHellmanEncrypt mask (priShareAt coeffs (i : ℤ))
        (pointMul (insurers.getD i 0) promiserKP.secret))
    some { t := t, r := r2, n := n, pubKey := promiserKP.public,
           pubPoly := pubPolyCommit coeffs, insurers := insurers,
           secrets := secrets }

/-- `Promise.VerifyPromise` (promise.go lines 621-634): structural checks
only, in source order. -/
def Promise.VerifyPromise {q : ℕ} (p : Promise q) (promiserKey : Point q) :
    Option PErr :=
  if p.t > p.n ∨ p.t > p.r ∨ p.r > p.n then some PErr.invalidTRN
  else if ¬ (promiserKey = p.pubKey) then some PErr.wrongKey
  else if (p.insurers.length : ℤ) ≠ p.n ∨ (p.secrets.length : ℤ) ≠ p.n then
    some PErr.lengthMismatch
  else none

/-- `Promise.VerifyShare` (promise.go lines 690-705): bounds check, insurer
key check, DH decryption with `Mul(pubKey, kp.Secret)`, polynomial check. -/
def Promise.VerifyShare {q : ℕ} (p : Promise q) (mask : Point q → Scalar q)
    (i : ℤ) (kp : KeyPair q) : Option PErr :=
  if i < 0 ∨ i ≥ p.n then some PErr.badIndex
  else if ¬ (p.insurers.getD i.toNat 0 = kp.public) then some PErr.wrongInsurer
  else
    let diffieBase := pointMul p.pubKey kp.secret
    let share := diffieHellmanDecrypt mask (p.secrets.getD i.toNat 0) diffieBase
    if pubPolyCheck p.pubPoly i share then none else some PErr.badShare

/-- `Promise.sign` (promise.go lines 718-723): the anonymity set is the
one-element set holding the signer's own public key; the index argument is
not used by the source. -/
def Promise.sign {q : ℕ} (_p : Promise q) (_i : ℤ) (kp : KeyPair q)
    (msg : String) : PromiseSignature q :=
  { signature := some [MByte.sigTok (anonSign msg [kp.public] kp.secret)] }

/-- `Promise.Sign` (promise.go lines 738-740): sign the endorsement tag. -/
def Promise.Sign {q : ℕ} (p : Promise q) (i : ℤ) (kp : KeyPair q) :
    PromiseSignature q :=
  p.sign i kp sigMsg

/-- `Promise.verifySignature` (promise.go lines 754-764): nil-signature
check, bounds check, then anonymous-set verification with ring
`{insurers[i]}`. -/
def Promise.verifySignature {q : ℕ} (p : Promise q) (i : ℤ)
    (sig : PromiseSignature q) (msg : String) : Option PErr :=
  match sig.signature with
  | none => some PErr.nilSignature
  | some sigBytes =>
    if i < 0 ∨ i ≥ p.n then some PErr.badIndex
    else if anonVerify msg [p.insurers.getD i.toNat 0] sigBytes then none
    else some PErr.badSignature

/-- `Promise.VerifySignature` (promise.go lines 775-777): verify over the
endorsement tag. -/
def Promise.VerifySignature {q : ℕ} (p : Promise q) (i : ℤ)
    (sig : PromiseSignature q) : Option PErr :=
  p.verifySignature i sig sigMsg

/-- `Promise.RevealShare` (promise.go lines 791-795): no bounds check in the
source; `none` models the runtime panic on an out-of-range access to
`p.secrets[i]`. -/
def Promise.RevealShare {q : ℕ} (p : Promise q) (mask : Point q → Scalar q)
    (i : ℤ) (kp : KeyPair q) : Option (Scalar q) :=
  if i < 0 ∨ i ≥ (p.secrets.length : ℤ) then none
  else some (diffieHellmanDecrypt mask (p.secrets.getD i.toNat 0)
    (pointMul p.pubKey kp.secret))

/-- `Promise.VerifyRevealedShare` (promise.go lines 807-815): note the source
uses the strict comparison `i > p.n`, not `i >= p.n`. -/
def Promise.VerifyRevealedShare {q : ℕ} (p : Promise q) (i : ℤ)
    (share : Scalar q) : Option PErr :=
  if i > p.n ∨ i < 0 then some PErr.badIndex
  else if pubPolyCheck p.pubPoly i share then none else some PErr.badShare

/-- `Promise.Blame` (promise.go lines 827-846): DH key from the insurer's
side, blame-tagged signature, and Fiat-Shamir proof for `D = x · P` with
`D = diffieKey`, `P = pubKey`, witness the insurer's secret.  The source
also returns an error from `HashProve`, which cannot occur in the ideal
model. -/
def Promise.Blame {q : ℕ} (p : Promise q) (i : ℤ) (kp : KeyPair q) :
    BlameProof q :=
  let diffieKey := pointMul p.pubKey kp.secret
  let insurerSig := p.sign i kp sigBlameMsg
  { diffieKey := diffieKey,
    diffieKeyProof := hashProveRep protocolName diffieKey p.pubKey kp.secret,
    signature := insurerSig }

/-- `Promise.VerifyBlame` (promise.go lines 858-879): bounds check, signature
verification over the blame tag, ZK verification with
`{D = proof.diffieKey, P = pubKey}`, decryption of `secrets[i]` with
`proof.diffieKey`, and the polynomial check; a passing polynomial check means
the blame is unjustified. -/
def Promise.VerifyBlame {q : ℕ} (p : Promise q) (mask : Point q → Scalar q)
    (i : ℤ) (blSig : BlameProof q) : Option PErr :=
  if i < 0 ∨ i ≥ p.n then some PErr.badIndex
  else match p.verifySignature i blSig.signature sigBlameMsg with
  | some e => some e
  | none =>
    if hashVerifyRep protocolName blSig.diffieKey p.pubKey blSig.diffieKeyProof
    then
      let share := diffieHellmanDecrypt mask (p.secrets.getD i.toNat 0)
        blSig.diffieKey
      if pubPolyCheck p.pubPoly i share then some PErr.unjustifiedBlame
      else none
    else some PErr.badProof

/-- `Promise.Equal` (promise.go lines 882-895): `n` first, then pointwise
secrets and insurers below `n`, then the remaining fields. -/
def Promise.Equal {q : ℕ} (p p2 : Promise q) : Bool :=
  if p.n ≠ p2.n then false
  else
    (List.range p.n.toNat).all (fun i =>
      decide (p.secrets.getD i 0 = p2.secrets.getD i 0) &&
      decide (p.insurers.getD i 0 = p2.insurers.getD i 0)) &&
    (decide (p.t = p2.t) && decide (p.r = p2.r) && decide (p.n = p2.n) &&
     decide (p.pubKey = p2.pubKey) && decide (p.pubPoly = p2.pubPoly))

/-- `PromiseSignature.Equal` (promise.go lines 95-97): same suite and deep
structural equality. -/
def PromiseSignature.Equal {q : ℕ} (s s2 : PromiseSignature q) : Bool :=
  decide (s = s2)

/-- `BlameProof.Equal` (promise.go lines 302-307). -/
def BlameProof.Equal {q : ℕ} (b b2 : BlameProof q) : Bool :=
  decide (b = b2)

/-- `PromiseState.Init` (promise.go lines 1089-1102): empty `PriShares` and
one empty signature and blame slot per insurer. -/
def PromiseState.Init {q : ℕ} (promise : Promise q) : PromiseState q :=
  { promise := promise,
    priShares := List.replicate promise.n.toNat none,
    signatures := List.replicate promise.n.toNat none,
    blames := List.replicate promise.n.toNat none }

/-- `PromiseState.AddSignature` (promise.go lines 1130-1132): unconditionally
overwrite slot `i`. -/
def PromiseState.AddSignature {q : ℕ} (ps : PromiseState q) (i : ℤ)
    (sig : PromiseSignature q) : PromiseState q :=
  { ps with signatures := ps.signatures.set i.toNat (some sig) }

/-- `PromiseState.AddBlameProof` (promise.go lines 1146-1148). -/
def PromiseState.AddBlameProof {q : ℕ} (ps : PromiseState q) (i : ℤ)
    (bproof : BlameProof q) : PromiseState q :=
  { ps with blames := ps.blames.set i.toNat (some bproof) }

/-- The loop body of `PromiseCertified` (promise.go lines 1171-1183): count
slots whose signature currently verifies, and return early with the
repudiation error on the first slot whose blame currently verifies. -/
def certLoop {q : ℕ} (mask : Point q → Scalar q) (ps : PromiseState q) :
    ℕ → ℕ → ℤ → Except PErr ℤ
  | 0, _, acc => Except.ok acc
  | k + 1, i, acc =>
    let sigOK : Bool :=
      match ps.signatures.getD i none with
      | none => false
      | some s => decide (ps.promise.VerifySignature (i : ℤ) s = none)
    let acc2 := if sigOK then acc + 1 else acc
    match ps.blames.getD i none with
    | some b =>
        if ps.promise.VerifyBlame mask (i : ℤ) b = none then
          Except.error PErr.repudiated
        else certLoop mask ps k (i + 1) acc2
    | none => certLoop mask ps k (i + 1) acc2

/-- `PromiseState.PromiseCertified` (promise.go lines 1166-1188):
`VerifyPromise` first, then the counting loop, then the threshold test
`validSigs < r`. -/
def PromiseState.PromiseCertified {q : ℕ} (ps : PromiseState q)
    (mask : Point q → Scalar q) (promiserKey : Point q) : Option PErr :=
  match ps.promise.VerifyPromise promiserKey with
  | some e => some e
  | none =>
    match certLoop mask ps ps.promise.n.toNat 0 0 with
    | Except.error e => some e
    | Except.ok validSigs =>
        if validSigs < ps.promise.r then some PErr.insufficientSigs else none

/-- `PromiseSignature.MarshalSize` (promise.go lines 109-111): one length
prefix plus the signature bytes (`len(nil) = 0`). -/
def PromiseSignature.MarshalSize {q : ℕ} (s : PromiseSignature q) : ℕ :=
  1 + (s.signature.getD []).length

/-- `PromiseSignature.MarshalBinary` (promise.go lines 124-129): layout
`[sigLen:4][sig:sigLen]`; the prefix is truncated to `uint32`. -/
def PromiseSignature.MarshalBinary {q : ℕ} (s : PromiseSignature q) :
    List (MByte q) :=
  MByte.raw ((s.signature.getD []).length % 2 ^ 32) :: s.signature.getD []

/-- `PromiseSignature.UnmarshalBinary` (promise.go lines 139-151): two
short-buffer checks, then the signature slice; total over all buffers. -/
def PromiseSignature.UnmarshalBinary {q : ℕ} (buf : List (MByte q)) :
    Except CErr (PromiseSignature q) :=
  if buf.length < 1 then Except.error CErr.bufferTooSmall
  else
    let sigLen := (buf.getD 0 (MByte.raw 0)).toLen
    if buf.length < 1 + sigLen then Except.error CErr.bufferTooSmall
    else Except.ok { signature := some ((buf.drop 1).take sigLen) }

/-- `BlameProof.MarshalSize` (promise.go lines 319-322). -/
def BlameProof.MarshalSize {q : ℕ} (bp : BlameProof q) : ℕ :=
  2 + 1 + bp.diffieKeyProof.length + bp.signature.MarshalSize

/-- `BlameProof.MarshalBinary` (promise.go lines 336-358): layout
`[proofLen:4][sigTotalLen:4][diffieKey][proof][signature]`. -/
def BlameProof.MarshalBinary {q : ℕ} (bp : BlameProof q) : List (MByte q) :=
  MByte.raw (bp.diffieKeyProof.length % 2 ^ 32) ::
  MByte.raw (bp.signature.MarshalSize % 2 ^ 32) ::
  MByte.pt bp.diffieKey ::
  (bp.diffieKeyProof ++ bp.signature.MarshalBinary)

/-- `BlameProof.UnmarshalBinary` (promise.go lines 368-401): header check,
point decode, second short-buffer check, proof slice, then the embedded
signature; total over all buffers. -/
def BlameProof.UnmarshalBinary {q : ℕ} (buf : List (MByte q)) :
    Except CErr (BlameProof q) :=
  if buf.length < 2 + 1 then Except.error CErr.bufferTooSmall
  else
    let proofLen := (buf.getD 0 (MByte.raw 0)).toLen
    let sigLen := (buf.getD 1 (MByte.raw 0)).toLen
    match buf.getD 2 (MByte.raw 0) with
    | MByte.pt dk =>
      if buf.length < 2 + 1 + proofLen + sigLen then
        Except.error CErr.bufferTooSmall
      else
        let dkp := (buf.drop 3).take proofLen
        match PromiseSignature.UnmarshalBinary
            ((buf.drop (3 + proofLen)).take sigLen) with
        | Except.error e => Except.error e
        | Except.ok sig =>
            Except.ok { diffieKey := dk, diffieKeyProof := dkp,
                        signature := sig }
    | _ => Except.error CErr.badEncoding

/-- `Promise.MarshalSize` (promise.go lines 898-901): three prefixes, the
public key, the committed polynomial (one point per coefficient), and `n`
insurer points plus `n` secret scalars. -/
def Promise.MarshalSize {q : ℕ} (p : Promise q) : ℕ :=
  3 + 1 + p.pubPoly.length + p.n.toNat + p.n.toNat

/-- `Promise.MarshalBinary` (promise.go lines 904-958): layout
`[n:4][t:4][r:4][pubKey][pubPoly][insurers][secrets]`. -/
def Promise.MarshalBinary {q : ℕ} (p : Promise q) : List (MByte q) :=
  MByte.raw (u32ofInt p.n) :: MByte.raw (u32ofInt p.t) ::
  MByte.raw (u32ofInt p.r) :: MByte.pt p.pubKey ::
  (p.pubPoly.map MByte.pt ++
   (p.insurers.map MByte.pt ++ p.secrets.map MByte.sc))

/-- Decode a fixed-size run of marshalled points, as the external
`PubPoly.UnmarshalBinary` does inside its already-sliced buffer: the first
invalid encoding is an error. -/
def decodePts {q : ℕ} : List (MByte q) → Except CErr (List (Point q))
  | [] => Except.ok []
  | MByte.pt v :: rest =>
    match decodePts rest with
    | Except.ok vs => Except.ok (v :: vs)
    | Except.error e => Except.error e
  | _ :: _ => Except.error CErr.badEncoding

/-- Read `count` marshalled points from `buf` starting at `start`, slicing
one element at a time as the source's insurer loop does; `none` models the
out-of-range slice panic, an invalid encoding is an error. -/
def readPts {q : ℕ} (buf : List (MByte q)) :
    ℕ → ℕ → Option (Except CErr (List (Point q)))
  | _, 0 => some (Except.ok [])
  | start, count + 1 =>
    if buf.length < start + 1 then none
    else match buf.getD start (MByte.raw 0) with
    | MByte.pt v =>
      match readPts buf (start + 1) count with
      | none => none
      | some (Except.error e) => some (Except.error e)
      | some (Except.ok vs) => some (Except.ok (v :: vs))
    | _ => some (Except.error CErr.badEncoding)

/-- Read `count` marshalled scalars from `buf` starting at `start`, slicing
one element at a time as the source's secrets loop does. -/
def readScs {q : ℕ} (buf : List (MByte q)) :
    ℕ → ℕ → Option (Except CErr (List (Scalar q)))
  | _, 0 => some (Except.ok [])
  | start, count + 1 =>
    if buf.length < start + 1 then none
    else match buf.getD start (MByte.raw 0) with
    | MByte.sc v =>
      match readScs buf (start + 1) count with
      | none => none
      | some (Except.error e) => some (Except.error e)
      | some (Except.ok vs) => some (Except.ok (v :: vs))
    | _ => some (Except.error CErr.badEncoding)

/-- `Promise.UnmarshalBinary` (promise.go lines 961-1012): the source
performs no short-buffer checks at all, so every read of a missing item is a
runtime panic, modelled by `none`: the prefixes are read unconditionally,
then the public key, the polynomial slice (whose length is `t` by
`PubPoly.Init`), and the two element-by-element array loops. -/
def Promise.UnmarshalBinary {q : ℕ} (buf : List (MByte q)) :
    Option (Except CErr (Promise q)) :=
  if buf.length < 3 then none
  else
    let n := (buf.getD 0 (MByte.raw 0)).toLen
    let t := (buf.getD 1 (MByte.raw 0)).toLen
    let r := (buf.getD 2 (MByte.raw 0)).toLen
    if buf.length < 3 + 1 then none
    else match buf.getD 3 (MByte.raw 0) with
    | MByte.pt pk =>
      if buf.length < 4 + t then none
      else match decodePts ((buf.drop 4).take t) with
      | Except.error e => some (Except.error e)
      | Except.ok poly =>
        match readPts buf (4 + t) n with
        | none => none
        | some (Except.error e) => some (Except.error e)
        | some (Except.ok ins) =>
          match readScs buf (4 + t + n) n with
          | none => none
          | some (Except.error e) => some (Except.error e)
          | some (Except.ok secs) =>
            some (Except.ok { t := (t : ℤ), r := (r : ℤ), n := (n : ℤ),
                              pubKey := pk, pubPoly := poly,
                              insurers := ins, secrets := secs })
    | _ => some (Except.error CErr.badEncoding)

/-- Slot `i` of the state holds a signature that currently verifies
(the increment condition of the `PromiseCertified` loop). -/
def slotSigValid {q : ℕ} (ps : PromiseState q) (i : ℕ) : Bool :=
  match ps.signatures.getD i none with
  | none => false
  | some s => decide (ps.promise.VerifySignature (i : ℤ) s = none)

/-- Slot `i` of the state holds a blame proof that currently verifies
(the early-return condition of the `PromiseCertified` loop). -/
def slotBlameValid {q : ℕ} (ps : PromiseState q) (mask : Point q → Scalar q)
    (i : ℕ) : Bool :=
  match ps.blames.getD i none with
  | none => false
  | some b => decide (ps.promise.VerifyBlame mask (i : ℤ) b = none)

/-- Concrete example suite mask over `ZMod 5` (an arbitrary deterministic
derivation) used to instantiate the theorems below. -/
def maskW : Point 5 → Scalar 5 := fun d => d

/-- Concrete honest secret keypair. -/
def skpW : KeyPair 5 := { secret := 2, public := 2 }

/-- Concrete honest promiser keypair. -/
def pkpW : KeyPair 5 := { secret := 3, public := 3 }

/-- Concrete honest insurer keypair (index 0). -/
def kpW : KeyPair 5 := { secret := 1, public := 1 }

/-- Concrete honest insurer keypair (index 1). -/
def kp2W : KeyPair 5 := { secret := 4, public := 4 }

/-- Fallback promise value for unwrapping `Option (Promise 5)`. -/
def promiseDflt : Promise 5 :=
  { t := 0, r := 0, n := 0, pubKey := 0, pubPoly := [], insurers := [],
    secrets := [] }

/-- Concrete honest promise with `t = r = n = 1`, insurer `kpW`. -/
def pW : Promise 5 :=
  (constructPromise maskW skpW pkpW 1 1 [kpW.public] []).getD promiseDflt

/-- Concrete honest promise constructed with an over-large `r = 5`. -/
def pHiR : Promise 5 :=
  (constructPromise maskW skpW pkpW 1 5 [kpW.public] []).getD promiseDflt

/-- Concrete honest promise with two distinct insurers `kpW`, `kp2W`. -/
def p4W : Promise 5 :=
  (constructPromise maskW skpW pkpW 1 2 [kpW.public, kp2W.public]
    []).getD promiseDflt

/-- Concrete promise state for `pW` holding insurer 0's endorsement. -/
def psW : PromiseState 5 :=
  (PromiseState.Init pW).AddSignature 0 (pW.Sign 0 kpW)

/-- Concrete fully populated signature for the codec round-trip. -/
def sigW : PromiseSignature 5 := pW.Sign 0 kpW

/-- Concrete fully populated blame proof for the codec round-trip. -/
def bpW : BlameProof 5 := pW.Blame 0 kpW

lemma getD_map_range {α : Type} (n : ℕ) (f : ℕ → α) (i : ℕ) (h : i < n)
    (d : α) : ((List.range n).map f).getD i d = f i := by
  simp [List.getD_eq_getElem?_getD, List.getElem?_map, List.getElem?_range, h]

lemma polyEval_commit {q : ℕ} (coeffs : List (Scalar q)) (x : ZMod q) :
    polyEval (pubPolyCommit coeffs) x = polyEval coeffs x := by
  simp [pubPolyCommit, pointMul, basePoint]

lemma pubPolyCheck_commit {q : ℕ} (coeffs : List (Scalar q)) (i : ℤ)
    (s : Scalar q) :
    pubPolyCheck (pubPolyCommit coeffs) i s =
      decide (s = priShareAt coeffs i) := by
  simp [pubPolyCheck, priShareAt, polyEval_commit, pointMul, basePoint]

/-- C7: for every scalar `s` and every Diffie-Hellman point `D` (whose
marshalling always succeeds in the model), decryption after encryption with
the same deterministic mask derived from `D` restores `s`:
`decrypt(encrypt(s, D), D) = s`. -/
theorem diffieHellman_encrypt_decrypt {q : ℕ} (mask : Point q → Scalar q)
    (s : Scalar q) (dkey : Point q) :
    diffieHellmanDecrypt mask (diffieHellmanEncrypt mask s dkey) dkey = s := by
  simp [diffieHellmanEncrypt, diffieHellmanDecrypt]

/-- C5 (amended): `ConstructPromise` panics exactly when `n < t`; when it
returns, the stored fields satisfy `t ≤ r ≤ n` with
`r = max(t, min(r_argument, n))` and `t` stored verbatim, so `1 ≤ t ≤ r ≤ n`
holds whenever the `t` argument is at least 1 (the source never checks
`t ≥ 1`). -/
theorem constructPromise_abort_iff_and_clamp {q : ℕ}
    (mask : Point q → Scalar q) (skp pkp : KeyPair q) (t r : ℤ)
    (insurers : List (Point q)) (rand : List (Scalar q)) :
    (constructPromise mask skp pkp t r insurers rand = none ↔
      (insurers.length : ℤ) < t) ∧
    ∀ p : Promise q, constructPromise mask skp pkp t r insurers rand = some p →
      p.t = t ∧ p.n = (insurers.length : ℤ) ∧
      p.r = max t (min r p.n) ∧ p.t ≤ p.r ∧ p.r ≤ p.n ∧
      (1 ≤ t → 1 ≤ p.t) := by
  constructor
  · simp only [constructPromise]
    split_ifs with h
    · simp [h]
    · simp
      omega
  · intro p hp
    simp only [constructPromise] at hp
    split_ifs at hp <;>
      (injection hp with hX; subst hX;
       refine ⟨rfl, rfl, ?_, ?_, ?_, ?_⟩ <;> dsimp only <;> omega)

/-- C5 counterexample: with `t = 0` and an empty insurer list the source does
not panic (`n < t` is false) and returns a promise whose stored `t` is `0`,
so the claimed invariant `1 ≤ t` does not hold on return. -/
theorem constructPromise_t_zero_returns :
    (constructPromise maskW skpW pkpW 0 0 [] []).map Promise.t = some 0 ∧
    ¬ (1 : ℤ) ≤ 0 := by
  constructor
  · rfl
  · decide

/-- Witness for `constructPromise_abort_iff_and_clamp` at a concrete input
(`t = 1`, `r = 5`, `n = 1`: the stored `r` is clamped to `1`). -/
theorem constructPromise_clamp_witness :
    pHiR.t = 1 ∧ pHiR.n = (([kpW.public] : List (Point 5)).length : ℤ) ∧
    pHiR.r = max 1 (min 5 pHiR.n) ∧ pHiR.t ≤ pHiR.r ∧ pHiR.r ≤ pHiR.n ∧
    ((1 : ℤ) ≤ 1 → 1 ≤ pHiR.t) :=
  (constructPromise_abort_iff_and_clamp maskW skpW pkpW 1 5 [kpW.public]
    []).2 pHiR (by decide)

/-- C10: the index argument of `sign` does not influence the signature (the
source never reads it); the produced one-element anonymity set is the
signer's own public key, not `insurers[i]`; consequently the signature
verifies at any index `j'` whose insurer equals the signer's public key. -/
theorem sign_independent_of_index {q : ℕ} (p p2 : Promise q) (i j : ℤ)
    (kp : KeyPair q) (msg : String) :
    p.sign i kp msg = p2.sign j kp msg ∧
    (p.sign i kp msg).signature =
      some [MByte.sigTok
        { msg := msg, ring := [kp.public], signer := kp.secret }] ∧
    (∀ j' : ℤ, 0 ≤ j' → j' < p.n → p.insurers.getD j'.toNat 0 = kp.public →
      kp.honest → p.VerifySignature j' (p.Sign i kp) = none) := by
  refine ⟨rfl, rfl, ?_⟩
  intro j' h0 hn hins hkp
  have hkp' : kp.public = pointMul (basePoint q) kp.secret := hkp
  have hb : ¬ (j' < 0 ∨ j' ≥ p.n) := by omega
  simp only [List.getD_eq_getElem?_getD] at hins
  simp [Promise.VerifySignature, Promise.verifySignature, Promise.Sign,
    Promise.sign, anonSign, anonVerify, hb]
  exact ⟨hins.symm, by rw [hins]; exact hkp'.symm⟩

/-- Witness for `sign_independent_of_index`: the endorsement produced with
index argument `7` verifies at the real index `0` of the concrete promise. -/
theorem sign_independent_witness : pW.VerifySignature 0 (pW.Sign 7 kpW) = none :=
  (sign_independent_of_index pW pW 7 3 kpW sigMsg).2.2 0 (by decide)
    (by decide) (by decide) rfl


lemma constructPromise_fields {q : ℕ} (mask : Point q → Scalar q)
    (skp pkp : KeyPair q) (t r : ℤ) (insurers : List (Point q))
    (rand : List (Scalar q)) (p : Promise q)
    (hp : constructPromise mask skp pkp t r insurers rand = some p) :
    p.t = t ∧ p.n = (insurers.length : ℤ) ∧ p.pubKey = pkp.public ∧
    p.pubPoly = pubPolyCommit (priPolyPick t skp.secret rand) ∧
    p.insurers = insurers ∧
    p.secrets = (List.range insurers.length).map (fun (k : ℕ) =>
      diffieHellmanEncrypt mask
        (priShareAt (priPolyPick t skp.secret rand) (k : ℤ))
        (pointMul (insurers.getD k 0) pkp.secret)) := by
  simp only [constructPromise] at hp
  split_ifs at hp <;>
    (injection hp with hX; subst hX;
     exact ⟨rfl, rfl, rfl, rfl, rfl, by simp⟩)

lemma verifySignature_self {q : ℕ} (p : Promise q) (i j : ℤ) (kp : KeyPair q)
    (h0 : 0 ≤ j) (hn : j < p.n) (hins : p.insurers.getD j.toNat 0 = kp.public)
    (hkp : kp.honest) : p.VerifySignature j (p.Sign i kp) = none := by
  have hkp' : kp.public = pointMul (basePoint q) kp.secret := hkp
  have hb : ¬ (j < 0 ∨ j ≥ p.n) := by omega
  simp only [List.getD_eq_getElem?_getD] at hins
  simp [Promise.VerifySignature, Promise.verifySignature, Promise.Sign,
    Promise.sign, anonSign, anonVerify, hb]
  exact ⟨hins.symm, by rw [hins]; exact hkp'.symm⟩

/-- C4: on an honestly constructed promise with pairwise-distinct insurer
keys, `VerifySignature(i, Sign(i, kp_i))` succeeds; the same signature fails
`VerifySignature(j, ·)` at every other index `j`; and an endorsement-tagged
signature never verifies over the blame tag at any index. -/
theorem endorsement_sound_and_complete {q : ℕ} (mask : Point q → Scalar q)
    (skp pkp : KeyPair q) (t r : ℤ) (insurers : List (Point q))
    (rand : List (Scalar q)) (p : Promise q)
    (hp : constructPromise mask skp pkp t r insurers rand = some p)
    (hnd : insurers.Nodup)
    (i : ℤ) (hi0 : 0 ≤ i) (hin : i < p.n) (kp : KeyPair q) (hkp : kp.honest)
    (hins : insurers.getD i.toNat 0 = kp.public) :
    p.VerifySignature i (p.Sign i kp) = none ∧
    (∀ j : ℤ, 0 ≤ j → j < p.n → j ≠ i →
       p.VerifySignature j (p.Sign i kp) ≠ none) ∧
    (∀ j : ℤ, p.verifySignature j (p.Sign i kp) sigBlameMsg ≠ none) := by
  obtain ⟨ht, hn, hpk, hpoly, hinsur, hsec⟩ :=
    constructPromise_fields mask skp pkp t r insurers rand p hp
  have hlen : i < (insurers.length : ℤ) := by omega
  have hiN : i.toNat < insurers.length := by omega
  have hins' : p.insurers.getD i.toNat 0 = kp.public := by
    rw [hinsur]; exact hins
  refine ⟨verifySignature_self p i i kp hi0 hin hins' hkp, ?_, ?_⟩
  · intro j hj0 hjn hne hcon
    have hjlen : j < (insurers.length : ℤ) := by omega
    have hjN : j.toNat < insurers.length := by omega
    have hb : ¬ (j < 0 ∨ j ≥ p.n) := by omega
    simp [Promise.VerifySignature, Promise.verifySignature, Promise.Sign,
      Promise.sign, anonSign, anonVerify, hb] at hcon
    rw [hinsur] at hcon
    have e1 : insurers[i.toNat] = kp.public := by
      have h1 := hins
      rwa [List.getD_eq_getElem?_getD, List.getElem?_eq_getElem hiN,
        Option.getD_some] at h1
    have e2 : insurers[j.toNat] = kp.public := by
      have h2 := hcon.1.symm
      rwa [List.getElem?_eq_getElem hjN, Option.getD_some] at h2
    have : j.toNat = i.toNat :=
      (List.Nodup.getElem_inj_iff hnd).mp (e2.trans e1.symm)
    omega
  · intro j hcon
    have hfalse : ∀ ring : List (Point q),
        anonVerify sigBlameMsg ring
          [MByte.sigTok
            { msg := sigMsg, ring := [kp.public], signer := kp.secret }] =
          false := by
      intro ring
      simp only [anonVerify, decide_eq_false_iff_not]
      intro hand
      exact absurd hand.1 (by decide)
    simp [Promise.verifySignature, Promise.Sign, Promise.sign,
      anonSign, hfalse] at hcon
    split_ifs at hcon <;> exact Option.noConfusion hcon

/-- Witness for `endorsement_sound_and_complete`: the concrete two-insurer
promise accepts insurer 0's endorsement at index 0. -/
theorem endorsement_witness : p4W.VerifySignature 0 (p4W.Sign 0 kpW) = none :=
  (endorsement_sound_and_complete maskW skpW pkpW 1 2
    [kpW.public, kp2W.public] [] p4W (by decide) (by decide) 0 (by decide)
    (by decide) kpW rfl (by decide)).1

/-- C1: on any `ConstructPromise` output built from honest key material with
`t ≤ r ≤ n` and `n ≥ 1`, each insurer's own `VerifyShare(i, kp_i)` succeeds:
the decrypted share passes the public polynomial check at index `i`. -/
theorem verifyShare_roundtrip {q : ℕ} (mask : Point q → Scalar q)
    (skp pkp : KeyPair q) (t r : ℤ) (insurers : List (Point q))
    (rand : List (Scalar q)) (p : Promise q)
    (hn1 : 1 ≤ (insurers.length : ℤ)) (htr : t ≤ r)
    (hrn : r ≤ (insurers.length : ℤ))
    (hskp : skp.honest) (hpkp : pkp.honest)
    (hp : constructPromise mask skp pkp t r insurers rand = some p)
    (i : ℤ) (hi0 : 0 ≤ i) (hin : i < p.n)
    (kp : KeyPair q) (hkp : kp.honest)
    (hins : insurers.getD i.toNat 0 = kp.public) :
    p.VerifyShare mask i kp = none := by
  obtain ⟨ht, hn, hpk, hpoly, hinsur, hsec⟩ :=
    constructPromise_fields mask skp pkp t r insurers rand p hp
  have hlen : i < (insurers.length : ℤ) := by omega
  have hiN : i.toNat < insurers.length := by omega
  have hcast : ((i.toNat : ℤ)) = i := Int.toNat_of_nonneg hi0
  have hb : ¬ (i < 0 ∨ i ≥ p.n) := by omega
  have hkp' : kp.public = pointMul (basePoint q) kp.secret := hkp
  have hpkp' : pkp.public = pointMul (basePoint q) pkp.secret := hpkp
  have hins' : p.insurers.getD i.toNat 0 = kp.public := by
    rw [hinsur]; exact hins
  simp only [Promise.VerifyShare]
  rw [if_neg hb, if_neg (not_not_intro hins'), hsec, hpoly, hpk,
    getD_map_range _ _ _ hiN, hcast, hins]
  have hdh : pointMul pkp.public kp.secret = pointMul kp.public pkp.secret := by
    rw [hkp', hpkp']
    simp only [pointMul, basePoint, mul_one]
    ring
  rw [hdh]
  simp [diffieHellmanEncrypt, diffieHellmanDecrypt, pubPolyCheck_commit]

/-- Witness for `verifyShare_roundtrip` on the concrete one-insurer
promise. -/
theorem verifyShare_witness : pW.VerifyShare maskW 0 kpW = none :=
  verifyShare_roundtrip maskW skpW pkpW 1 1 [kpW.public] [] pW (by decide)
    (by decide) (by decide) rfl rfl (by decide) 0 (by decide) (by decide)
    kpW rfl (by decide)

lemma verifySignature_sign_self {q : ℕ} (p : Promise q) (i j : ℤ)
    (kp : KeyPair q) (msg : String) (h0 : 0 ≤ j) (hn : j < p.n)
    (hins : p.insurers.getD j.toNat 0 = kp.public) (hkp : kp.honest) :
    p.verifySignature j (p.sign i kp msg) msg = none := by
  have hkp' : kp.public = pointMul (basePoint q) kp.secret := hkp
  have hb : ¬ (j < 0 ∨ j ≥ p.n) := by omega
  simp only [List.getD_eq_getElem?_getD] at hins
  simp [Promise.verifySignature, Promise.sign, anonSign, anonVerify, hb]
  exact ⟨hins.symm, by rw [hins]; exact hkp'.symm⟩

lemma verifySignature_ne_unjustified {q : ℕ} (p : Promise q) (i : ℤ)
    (sig : PromiseSignature q) (msg : String) :
    p.verifySignature i sig msg ≠ some PErr.unjustifiedBlame := by
  simp only [Promise.verifySignature]
  cases sig.signature with
  | none => simp
  | some b => split_ifs <;> simp

/-- C2: `VerifyBlame(i, proof)` performs, in order, the index bounds check,
the blame-tag signature verification, the ZK verification with
`D = proof.diffieKey` and `P = pubKey`, and the decrypt-then-check of
`secrets[i]`; it returns nil iff the earlier checks pass and the polynomial
check fails, returns `UnjustifiedBlame` iff the earlier checks pass and the
polynomial check succeeds, and on an honest `ConstructPromise` output
`VerifyBlame(i, Blame(i, kp_i))` returns `UnjustifiedBlame`. -/
theorem verifyBlame_characterization {q : ℕ} (mask : Point q → Scalar q)
    (p : Promise q) (i : ℤ) (pf : BlameProof q)
    (skp pkp : KeyPair q) (t r : ℤ) (insurers : List (Point q))
    (rand : List (Scalar q)) (pc : Promise q) (ic : ℤ) (kp : KeyPair q)
    (hpkp : pkp.honest) (hkp : kp.honest)
    (hpc : constructPromise mask skp pkp t r insurers rand = some pc)
    (hic0 : 0 ≤ ic) (hicn : ic < pc.n)
    (hinsc : insurers.getD ic.toNat 0 = kp.public) :
    (¬ (0 ≤ i ∧ i < p.n) → p.VerifyBlame mask i pf = some PErr.badIndex) ∧
    (∀ e : PErr, (0 ≤ i ∧ i < p.n) →
       p.verifySignature i pf.signature sigBlameMsg = some e →
       p.VerifyBlame mask i pf = some e) ∧
    ((0 ≤ i ∧ i < p.n) →
       p.verifySignature i pf.signature sigBlameMsg = none →
       hashVerifyRep protocolName pf.diffieKey p.pubKey pf.diffieKeyProof =
         false →
       p.VerifyBlame mask i pf = some PErr.badProof) ∧
    (p.VerifyBlame mask i pf = none ↔
       (0 ≤ i ∧ i < p.n ∧
        p.verifySignature i pf.signature sigBlameMsg = none ∧
        hashVerifyRep protocolName pf.diffieKey p.pubKey pf.diffieKeyProof =
          true ∧
        pubPolyCheck p.pubPoly i
          (diffieHellmanDecrypt mask (p.secrets.getD i.toNat 0) pf.diffieKey)
          = false)) ∧
    (p.VerifyBlame mask i pf = some PErr.unjustifiedBlame ↔
       (0 ≤ i ∧ i < p.n ∧
        p.verifySignature i pf.signature sigBlameMsg = none ∧
        hashVerifyRep protocolName pf.diffieKey p.pubKey pf.diffieKeyProof =
          true ∧
        pubPolyCheck p.pubPoly i
          (diffieHellmanDecrypt mask (p.secrets.getD i.toNat 0) pf.diffieKey)
          = true)) ∧
    pc.VerifyBlame mask ic (pc.Blame ic kp) = some PErr.unjustifiedBlame := by
  refine ⟨?_, ?_, ?_, ?_, ?_, ?_⟩
  · intro hb
    simp only [Promise.VerifyBlame]
    rw [if_pos (by omega)]
  · rintro e ⟨h0, hn⟩ hsig
    simp only [Promise.VerifyBlame]
    rw [if_neg (by omega), hsig]
  · rintro ⟨h0, hn⟩ hsig hv
    simp only [Promise.VerifyBlame]
    rw [if_neg (by omega), hsig]
    simp [hv]
  · constructor
    · intro h
      simp only [Promise.VerifyBlame] at h
      by_cases hbnd : i < 0 ∨ i ≥ p.n
      · rw [if_pos hbnd] at h
        exact Option.noConfusion h
      · rw [if_neg hbnd] at h
        cases hsg : p.verifySignature i pf.signature sigBlameMsg with
        | some e => rw [hsg] at h; exact Option.noConfusion h
        | none =>
          rw [hsg] at h
          cases hv : hashVerifyRep protocolName pf.diffieKey p.pubKey
              pf.diffieKeyProof with
          | false =>
            simp only [hv] at h
            simp at h
          | true =>
            simp only [hv] at h
            cases hc : pubPolyCheck p.pubPoly i
                (diffieHellmanDecrypt mask (p.secrets.getD i.toNat 0)
                  pf.diffieKey) with
            | false => exact ⟨by omega, by omega, rfl, rfl, rfl⟩
            | true =>
              simp only [hc] at h
              simp at h
    · rintro ⟨h0, hn, hsg, hv, hc⟩
      simp only [Promise.VerifyBlame]
      rw [if_neg (by omega), hsg]
      simp only [hv, hc]
      simp
  · constructor
    · intro h
      simp only [Promise.VerifyBlame] at h
      by_cases hbnd : i < 0 ∨ i ≥ p.n
      · rw [if_pos hbnd] at h
        exact absurd (Option.some.inj h) (by decide)
      · rw [if_neg hbnd] at h
        cases hsg : p.verifySignature i pf.signature sigBlameMsg with
        | some e =>
          rw [hsg] at h
          have he : e = PErr.unjustifiedBlame := Option.some.inj h
          exact absurd (he ▸ hsg)
            (verifySignature_ne_unjustified p i pf.signature sigBlameMsg)
        | none =>
          rw [hsg] at h
          cases hv : hashVerifyRep protocolName pf.diffieKey p.pubKey
              pf.diffieKeyProof with
          | false =>
            simp only [hv] at h
            simp at h
          | true =>
            simp only [hv] at h
            cases hc : pubPolyCheck p.pubPoly i
                (diffieHellmanDecrypt mask (p.secrets.getD i.toNat 0)
                  pf.diffieKey) with
            | false =>
              simp only [hc] at h
              simp at h
            | true => exact ⟨by omega, by omega, rfl, rfl, rfl⟩
    · rintro ⟨h0, hn, hsg, hv, hc⟩
      simp only [Promise.VerifyBlame]
      rw [if_neg (by omega), hsg]
      simp only [hv, hc]
      simp
  · obtain ⟨ht, hnn, hpk, hpoly, hinsur, hsec⟩ :=
      constructPromise_fields mask skp pkp t r insurers rand pc hpc
    have hlen : ic < (insurers.length : ℤ) := by omega
    have hiN : ic.toNat < insurers.length := by omega
    have hcast : ((ic.toNat : ℤ)) = ic := Int.toNat_of_nonneg hic0
    have hbic : ¬ (ic < 0 ∨ ic ≥ pc.n) := by omega
    have hkp' : kp.public = pointMul (basePoint q) kp.secret := hkp
    have hpkp' : pkp.public = pointMul (basePoint q) pkp.secret := hpkp
    have hins' : pc.insurers.getD ic.toNat 0 = kp.public := by
      rw [hinsur]; exact hinsc
    have hsigok :
        pc.verifySignature ic (pc.sign ic kp sigBlameMsg) sigBlameMsg =
          none :=
      verifySignature_sign_self pc ic ic kp sigBlameMsg hic0 hicn hins' hkp
    simp only [Promise.VerifyBlame, Promise.Blame]
    rw [if_neg hbic, hsigok]
    dsimp only
    rw [if_pos (show hashVerifyRep protocolName
        (pointMul pc.pubKey kp.secret) pc.pubKey
        (hashProveRep protocolName (pointMul pc.pubKey kp.secret) pc.pubKey
          kp.secret) = true by simp [hashVerifyRep, hashProveRep])]
    have hdh : pointMul pkp.public kp.secret = pointMul kp.public pkp.secret := by
      rw [hkp', hpkp']
      simp only [pointMul, basePoint, mul_one]
      ring
    simp only [hsec, hpoly, hpk, hdh, getD_map_range _ _ _ hiN, hcast, hinsc]
    simp [diffieHellmanEncrypt, diffieHellmanDecrypt, pubPolyCheck_commit]

/-- Witness for `verifyBlame_characterization`: blaming the honest concrete
promise is rejected as unjustified. -/
theorem verifyBlame_witness :
    pW.VerifyBlame maskW 0 (pW.Blame 0 kpW) = some PErr.unjustifiedBlame :=
  (verifyBlame_characterization maskW pW 0 (pW.Blame 0 kpW) skpW pkpW 1 1
    [kpW.public] [] pW 0 kpW rfl rfl (by decide) (by decide) (by decide)
    (by decide)).2.2.2.2.2

lemma certLoop_eq {q : ℕ} (mask : Point q → Scalar q) (ps : PromiseState q) :
    ∀ (k i : ℕ) (acc : ℤ),
      certLoop mask ps k i acc =
        if (List.range' i k).all (fun j => ! slotBlameValid ps mask j) then
          Except.ok (acc +
            (((List.range' i k).countP (fun j => slotSigValid ps j) : ℕ) : ℤ))
        else Except.error PErr.repudiated := by
  intro k
  induction k with
  | zero =>
    intro i acc
    simp [certLoop]
  | succ k ih =>
    intro i acc
    have hr : List.range' i (k + 1) = i :: List.range' (i + 1) k := by
      simp [List.range']
    rw [hr, List.all_cons, List.countP_cons]
    have hss : (match ps.signatures.getD i none with
        | none => false
        | some s => decide (ps.promise.VerifySignature (i : ℤ) s = none)) =
        slotSigValid ps i := rfl
    simp only [certLoop, hss]
    cases hbl : ps.blames.getD i none with
    | some b =>
      by_cases hvb : ps.promise.VerifyBlame mask (i : ℤ) b = none
      · have hsb : slotBlameValid ps mask i = true := by
          simp only [slotBlameValid]
          rw [hbl]
          simp [hvb]
        simp [hbl, hvb, hsb]
      · have hsb : slotBlameValid ps mask i = false := by
          simp only [slotBlameValid]
          rw [hbl]
          simp [hvb]
        simp only [hbl, hsb]
        rw [if_neg hvb, ih]
        simp only [Bool.not_false, Bool.true_and]
        by_cases hall :
            (List.range' (i + 1) k).all (fun j => ! slotBlameValid ps mask j)
              = true
        · rw [if_pos hall, if_pos hall]
          cases hsv : slotSigValid ps i <;>
            simp [hsv] <;> push_cast <;> ring
        · rw [if_neg hall, if_neg hall]
    | none =>
      have hsb : slotBlameValid ps mask i = false := by
        simp only [slotBlameValid]
        rw [hbl]
      simp only [hbl, hsb]
      rw [ih]
      simp only [Bool.not_false, Bool.true_and]
      by_cases hall :
          (List.range' (i + 1) k).all (fun j => ! slotBlameValid ps mask j)
            = true
      · rw [if_pos hall, if_pos hall]
        cases hsv : slotSigValid ps i <;>
          simp [hsv] <;> push_cast <;> ring
      · rw [if_neg hall, if_neg hall]

/-- C3: for every state whose slot arrays have the per-index layout produced
by `Init`, `PromiseCertified` returns nil iff `VerifyPromise` succeeds, no
slot holds a blame proof that currently passes `VerifyBlame`, and at least
`r` slots hold signatures that currently pass `VerifySignature` (invalid
slot contents count neither way); a single currently-valid blame yields the
`PromiseRepudiated` error regardless of the signature count. -/
theorem promiseCertified_characterization {q : ℕ} (mask : Point q → Scalar q)
    (ps : PromiseState q) (key : Point q)
    (hsl : ps.signatures.length = ps.promise.n.toNat)
    (hbll : ps.blames.length = ps.promise.n.toNat) :
    (ps.PromiseCertified mask key = none ↔
      (ps.promise.VerifyPromise key = none ∧
       (∀ i : ℕ, i < ps.promise.n.toNat → slotBlameValid ps mask i = false) ∧
       ps.promise.r ≤
         (((List.range ps.promise.n.toNat).countP
            (fun j => slotSigValid ps j) : ℕ) : ℤ))) ∧
    ((ps.promise.VerifyPromise key = none ∧
      ∃ i : ℕ, i < ps.promise.n.toNat ∧ slotBlameValid ps mask i = true) →
      ps.PromiseCertified mask key = some PErr.repudiated) := by
  have hloop := certLoop_eq mask ps ps.promise.n.toNat 0 0
  rw [← List.range_eq_range'] at hloop
  constructor
  · constructor
    · intro h
      simp only [PromiseState.PromiseCertified] at h
      cases hvp : ps.promise.VerifyPromise key with
      | some e => rw [hvp] at h; exact Option.noConfusion h
      | none =>
        rw [hvp, hloop] at h
        by_cases hall : (List.range ps.promise.n.toNat).all
            (fun j => ! slotBlameValid ps mask j) = true
        · rw [if_pos hall] at h
          refine ⟨rfl, ?_, ?_⟩
          · intro i hi
            have := (List.all_eq_true.mp hall) i (by
              simp [List.mem_range, hi])
            simpa using this
          · simp only [zero_add] at h
            split_ifs at h with hlt
            omega
        · rw [if_neg hall] at h
          exact Option.noConfusion h
    · rintro ⟨hvp, hnb, hr⟩
      simp only [PromiseState.PromiseCertified]
      rw [hvp, hloop, if_pos (List.all_eq_true.mpr (by
        intro i hi
        have := hnb i (List.mem_range.mp hi)
        simp [this]))]
      simp only [zero_add]
      rw [if_neg (by omega)]
  · rintro ⟨hvp, i, hi, hib⟩
    simp only [PromiseState.PromiseCertified]
    rw [hvp, hloop, if_neg (by
      intro hall
      have := (List.all_eq_true.mp hall) i (List.mem_range.mpr hi)
      rw [hib] at this
      exact absurd this (by decide))]

/-- Witness for `promiseCertified_characterization`: the concrete state
holding insurer 0's valid endorsement on the one-insurer promise (with
`r = 1`) certifies. -/
theorem promiseCertified_witness : psW.PromiseCertified maskW pkpW.public = none :=
  (promiseCertified_characterization maskW psW pkpW.public (by decide)
    (by decide)).1.mpr ⟨by decide, by decide, by decide⟩

lemma getD_append_cons {α : Type} (l₁ l₂ : List α) (x d : α) :
    (l₁ ++ x :: l₂).getD l₁.length d = x := by
  rw [List.getD_eq_getElem?_getD, List.getElem?_append_right (le_refl _)]
  simp

lemma decodePts_map {q : ℕ} (l : List (Point q)) :
    decodePts (l.map MByte.pt) = Except.ok l := by
  induction l with
  | nil => rfl
  | cons x xs ih => simp [decodePts, ih]

lemma readPts_append {q : ℕ} (pre suf : List (MByte q)) (l : List (Point q)) :
    readPts (pre ++ (l.map MByte.pt ++ suf)) pre.length l.length =
      some (Except.ok l) := by
  induction l generalizing pre with
  | nil => rfl
  | cons x xs ih =>
    simp only [List.map_cons, List.cons_append, List.length_cons]
    rw [readPts]
    rw [if_neg (by
      simp only [List.length_append, List.length_cons, List.length_map]
      omega)]
    rw [getD_append_cons]
    have hshape : pre ++ MByte.pt x :: (xs.map MByte.pt ++ suf) =
        (pre ++ [MByte.pt x]) ++ (xs.map MByte.pt ++ suf) := by simp
    have hlen : pre.length + 1 = (pre ++ [MByte.pt x]).length := by simp
    rw [hshape, hlen, ih]

lemma readScs_append {q : ℕ} (pre suf : List (MByte q)) (l : List (Scalar q)) :
    readScs (pre ++ (l.map MByte.sc ++ suf)) pre.length l.length =
      some (Except.ok l) := by
  induction l generalizing pre with
  | nil => rfl
  | cons x xs ih =>
    simp only [List.map_cons, List.cons_append, List.length_cons]
    rw [readScs]
    rw [if_neg (by
      simp only [List.length_append, List.length_cons, List.length_map]
      omega)]
    rw [getD_append_cons]
    have hshape : pre ++ MByte.sc x :: (xs.map MByte.sc ++ suf) =
        (pre ++ [MByte.sc x]) ++ (xs.map MByte.sc ++ suf) := by simp
    have hlen : pre.length + 1 = (pre ++ [MByte.sc x]).length := by simp
    rw [hshape, hlen, ih]

lemma psig_roundtrip {q : ℕ} (s : PromiseSignature q) (sb : List (MByte q))
    (hs : s.signature = some sb) (hsl : sb.length < 2 ^ 32) :
    PromiseSignature.UnmarshalBinary s.MarshalBinary = Except.ok s := by
  simp only [PromiseSignature.MarshalBinary, hs, Option.getD_some,
    PromiseSignature.UnmarshalBinary]
  rw [if_neg (by simp)]
  simp only [List.getD_cons_zero, MByte.toLen, Nat.mod_mod_of_dvd _ dvd_rfl,
    Nat.mod_eq_of_lt hsl, List.length_cons]
  rw [if_neg (by omega)]
  simp only [List.drop_succ_cons, List.drop_zero, List.take_length]
  rw [← hs]

lemma drop3_add {α : Type} (a b c : α) (l₁ l₂ : List α) :
    (a :: b :: c :: (l₁ ++ l₂)).drop (3 + l₁.length) = l₂ := by
  have hshape : a :: b :: c :: (l₁ ++ l₂) = (a :: b :: c :: l₁) ++ l₂ := by
    simp
  have hlen : 3 + l₁.length = (a :: b :: c :: l₁).length := by
    simp only [List.length_cons]
    omega
  rw [hshape, hlen, List.drop_left]

lemma bp_roundtrip {q : ℕ} (bp : BlameProof q) (bpsb : List (MByte q))
    (hbs : bp.signature.signature = some bpsb)
    (hbsl : 1 + bpsb.length < 2 ^ 32)
    (hbpl : bp.diffieKeyProof.length < 2 ^ 32) :
    BlameProof.UnmarshalBinary bp.MarshalBinary = Except.ok bp := by
  have hms : bp.signature.MarshalSize = 1 + bpsb.length := by
    simp [PromiseSignature.MarshalSize, hbs]
  have hmb : bp.signature.MarshalBinary.length = 1 + bpsb.length := by
    simp [PromiseSignature.MarshalBinary, hbs]
    omega
  have hps := psig_roundtrip bp.signature bpsb hbs (by omega)
  simp only [BlameProof.MarshalBinary, BlameProof.UnmarshalBinary]
  rw [if_neg (by simp)]
  simp only [List.getD_cons_zero, List.getD_cons_succ, MByte.toLen,
    Nat.mod_mod_of_dvd _ dvd_rfl, Nat.mod_eq_of_lt hbpl, hms,
    Nat.mod_eq_of_lt hbsl]
  rw [if_neg (by
    simp only [List.length_cons, List.length_append, hmb]
    omega)]
  have hd3 : (MByte.raw bp.diffieKeyProof.length ::
      MByte.raw (1 + bpsb.length) :: MByte.pt bp.diffieKey ::
      (bp.diffieKeyProof ++ bp.signature.MarshalBinary)).drop 3 =
      bp.diffieKeyProof ++ bp.signature.MarshalBinary := rfl
  rw [hd3, List.take_left, drop3_add, ← hmb, List.take_length, hps]

lemma readPts_at {q : ℕ} (a b c d : MByte q) (poly : List (MByte q))
    (l : List (Point q)) (suf : List (MByte q)) (st cnt : ℕ)
    (hst : st = 4 + poly.length) (hcnt : cnt = l.length) :
    readPts (a :: b :: c :: d :: (poly ++ (l.map MByte.pt ++ suf))) st cnt =
      some (Except.ok l) := by
  subst hst
  subst hcnt
  have h := readPts_append (a :: b :: c :: d :: poly) suf l
  simp only [List.cons_append, List.length_cons] at h
  rw [show 4 + poly.length = poly.length + 1 + 1 + 1 + 1 from by omega]
  exact h

lemma readScs_at {q : ℕ} (a b c d : MByte q) (poly ins : List (MByte q))
    (l : List (Scalar q)) (st cnt : ℕ)
    (hst : st = 4 + poly.length + ins.length) (hcnt : cnt = l.length) :
    readScs (a :: b :: c :: d :: (poly ++ (ins ++ l.map MByte.sc))) st cnt =
      some (Except.ok l) := by
  subst hst
  subst hcnt
  have h := readScs_append ((a :: b :: c :: d :: poly) ++ ins) [] l
  simp only [List.append_nil, List.append_assoc, List.cons_append,
    List.length_append, List.length_cons] at h
  rw [show 4 + poly.length + ins.length =
    poly.length + ins.length + 1 + 1 + 1 + 1 from by omega]
  exact h

lemma promise_roundtrip {q : ℕ} (p : Promise q)
    (hpt : (p.pubPoly.length : ℤ) = p.t) (hpi : (p.insurers.length : ℤ) = p.n)
    (hps : (p.secrets.length : ℤ) = p.n)
    (htw : p.t < 2 ^ 32) (hr0 : 0 ≤ p.r) (hrw : p.r < 2 ^ 32)
    (hnw : p.n < 2 ^ 32) :
    Promise.UnmarshalBinary p.MarshalBinary = some (Except.ok p) := by
  obtain ⟨t, r, n, pk, poly, ins, secs⟩ := p
  simp only at hpt hpi hps htw hr0 hrw hnw
  subst hpt
  subst hpi
  have hsl : secs.length = ins.length := by
    simpa using hps
  have e1 : u32ofInt (ins.length : ℤ) = ins.length := by
    simp only [u32ofInt, Int.emod_eq_of_lt (Int.natCast_nonneg _) hnw,
      Int.toNat_natCast]
  have e2 : u32ofInt (poly.length : ℤ) = poly.length := by
    simp only [u32ofInt, Int.emod_eq_of_lt (Int.natCast_nonneg _) htw,
      Int.toNat_natCast]
  have e3 : u32ofInt r = r.toNat := by
    simp only [u32ofInt, Int.emod_eq_of_lt hr0 hrw]
  simp only [Promise.MarshalBinary, Promise.UnmarshalBinary, e1, e2, e3,
    List.getD_cons_zero, List.getD_cons_succ, MByte.toLen,
    Nat.mod_eq_of_lt (show ins.length < 2 ^ 32 by omega),
    Nat.mod_eq_of_lt (show poly.length < 2 ^ 32 by omega),
    Nat.mod_eq_of_lt (show r.toNat < 2 ^ 32 by omega),
    List.length_cons, List.length_append, List.length_map]
  rw [if_neg (by omega), if_neg (by omega), if_neg (by omega)]
  rw [show (MByte.raw ins.length :: MByte.raw poly.length ::
      MByte.raw r.toNat :: MByte.pt pk ::
      (poly.map MByte.pt ++ (ins.map MByte.pt ++ secs.map MByte.sc))).drop 4 =
      poly.map MByte.pt ++ (ins.map MByte.pt ++ secs.map MByte.sc) from rfl]
  rw [List.take_left' (List.length_map poly MByte.pt),
    decodePts_map]
  rw [readPts_at (MByte.raw ins.length) (MByte.raw poly.length)
      (MByte.raw r.toNat) (MByte.pt pk) (poly.map MByte.pt) ins
      (secs.map MByte.sc) (4 + poly.length) ins.length
      (by simp only [List.length_map]) rfl]
  rw [readScs_at (MByte.raw ins.length) (MByte.raw poly.length)
      (MByte.raw r.toNat) (MByte.pt pk) (poly.map MByte.pt)
      (ins.map MByte.pt) secs (4 + poly.length + ins.length) ins.length
      (by simp only [List.length_map]) hsl.symm]
  rw [Int.toNat_of_nonneg hr0]

/-- C8: for fully populated `PromiseSignature`, `BlameProof` and `Promise`
instances, `MarshalSize` equals the marshalled length, unmarshalling the
marshalled bytes into a same-suite instance reproduces the instance exactly
(hence it is `Equal` to the original and every `Verify*` call behaves
identically on it). -/
theorem codec_roundtrip {q : ℕ}
    (s : PromiseSignature q) (sb : List (MByte q))
    (hs : s.signature = some sb) (hsl : sb.length < 2 ^ 32)
    (bp : BlameProof q) (bpsb : List (MByte q))
    (hbs : bp.signature.signature = some bpsb)
    (hbsl : 1 + bpsb.length < 2 ^ 32)
    (hbpl : bp.diffieKeyProof.length < 2 ^ 32)
    (p : Promise q)
    (hpt : (p.pubPoly.length : ℤ) = p.t) (hpi : (p.insurers.length : ℤ) = p.n)
    (hps : (p.secrets.length : ℤ) = p.n)
    (htw : p.t < 2 ^ 32) (hr0 : 0 ≤ p.r) (hrw : p.r < 2 ^ 32)
    (hnw : p.n < 2 ^ 32) :
    (s.MarshalSize = s.MarshalBinary.length ∧
     PromiseSignature.UnmarshalBinary s.MarshalBinary = Except.ok s ∧
     s.Equal s = true) ∧
    (bp.MarshalSize = bp.MarshalBinary.length ∧
     BlameProof.UnmarshalBinary bp.MarshalBinary = Except.ok bp ∧
     bp.Equal bp = true) ∧
    (p.MarshalSize = p.MarshalBinary.length ∧
     Promise.UnmarshalBinary p.MarshalBinary = some (Except.ok p) ∧
     p.Equal p = true) := by
  refine ⟨⟨?_, psig_roundtrip s sb hs hsl, ?_⟩,
          ⟨?_, bp_roundtrip bp bpsb hbs hbsl hbpl, ?_⟩,
          ⟨?_, promise_roundtrip p hpt hpi hps htw hr0 hrw hnw, ?_⟩⟩
  · simp [PromiseSignature.MarshalSize, PromiseSignature.MarshalBinary]
    omega
  · simp [PromiseSignature.Equal]
  · simp [BlameProof.MarshalSize, BlameProof.MarshalBinary,
      PromiseSignature.MarshalSize, PromiseSignature.MarshalBinary]
    omega
  · simp [BlameProof.Equal]
  · simp [Promise.MarshalSize, Promise.MarshalBinary]
    omega
  · simp [Promise.Equal, List.all_eq_true]

/-- Witness for `codec_roundtrip`: the concrete promise survives the
marshal/unmarshal round-trip. -/
theorem codec_roundtrip_witness :
    Promise.UnmarshalBinary pW.MarshalBinary = some (Except.ok pW) :=
  (codec_roundtrip sigW
    [MByte.sigTok { msg := sigMsg, ring := [kpW.public], signer := kpW.secret }]
    (by decide) (by decide) bpW
    [MByte.sigTok
      { msg := sigBlameMsg, ring := [kpW.public], signer := kpW.secret }]
    (by decide) (by decide) (by decide) pW (by decide) (by decide) (by decide)
    (by decide) (by decide) (by decide) (by decide)).2.2.2.1

/-- C9 counterexample: `Promise.UnmarshalBinary` performs no bounds checks,
so on the empty buffer it panics (out-of-range read, modelled by `none`)
instead of returning a buffer-too-small error. -/
theorem promiseUnmarshal_empty_panics :
    Promise.UnmarshalBinary ([] : List (MByte 5)) = none := rfl

/-- C9 (amended): `PromiseSignature.UnmarshalBinary` and
`BlameProof.UnmarshalBinary` are total: on any buffer lacking the bytes
declared by the length prefixes they return a buffer-too-small error (or,
for `BlameProof`, a point-decoding error) and never panic;
`Promise.UnmarshalBinary` instead panics on every buffer shorter than its
fixed header. -/
theorem unmarshal_buffer_checks {q : ℕ} :
    (∀ buf : List (MByte q),
       buf.length < 1 + (buf.getD 0 (MByte.raw 0)).toLen →
       PromiseSignature.UnmarshalBinary buf =
         Except.error CErr.bufferTooSmall) ∧
    (∀ buf : List (MByte q), buf.length < 2 + 1 →
       BlameProof.UnmarshalBinary buf = Except.error CErr.bufferTooSmall) ∧
    (∀ buf : List (MByte q), 2 + 1 ≤ buf.length →
       buf.length < 2 + 1 + (buf.getD 0 (MByte.raw 0)).toLen +
         (buf.getD 1 (MByte.raw 0)).toLen →
       (BlameProof.UnmarshalBinary buf = Except.error CErr.bufferTooSmall ∨
        BlameProof.UnmarshalBinary buf = Except.error CErr.badEncoding)) ∧
    (∀ buf : List (MByte q), buf.length < 3 →
       Promise.UnmarshalBinary buf = none) := by
  refine ⟨?_, ?_, ?_, ?_⟩
  · intro buf h
    simp only [PromiseSignature.UnmarshalBinary]
    by_cases h1 : buf.length < 1
    · rw [if_pos h1]
    · rw [if_neg h1, if_pos h]
  · intro buf h
    simp only [BlameProof.UnmarshalBinary]
    rw [if_pos h]
  · intro buf h3 hlt
    simp only [BlameProof.UnmarshalBinary]
    rw [if_neg (by omega)]
    cases htok : buf.getD 2 (MByte.raw 0) with
    | pt v =>
      left
      dsimp only
      rw [if_pos hlt]
    | raw v => right; rfl
    | sc v => right; rfl
    | sigTok v => right; rfl
    | proofTok v => right; rfl
  · intro buf h
    simp only [Promise.UnmarshalBinary]
    rw [if_pos h]

/-- Witness for `unmarshal_buffer_checks`: a one-prefix buffer declaring a
7-byte signature is rejected as too small. -/
theorem unmarshal_checks_witness :
    PromiseSignature.UnmarshalBinary ([MByte.raw 7] : List (MByte 5)) =
      Except.error CErr.bufferTooSmall :=
  (unmarshal_buffer_checks (q := 5)).1 [MByte.raw 7] (by decide)

/-- C6 (code-bug evidence at the failing input `i = n`): on the concrete
one-insurer promise, `VerifyRevealedShare(n, share)` passes its bounds check
(the source compares `i > p.n`, not `i >= p.n`, as its own TODO notes) and
can even succeed, and `RevealShare(n, kp)` has no bounds check at all and
panics (modelled by `none`) — neither reports the BadIndex error the spec
requires for every indexed operation. -/
theorem revealedShare_index_bug :
    pW.n = 1 ∧ pW.VerifyRevealedShare 1 2 = none ∧
    pW.RevealShare maskW 1 kpW = none := by decide
